import Mathlib

set_option autoImplicit false

/-!
Verification of the quick-e2b-sandbox pipeline.

Python strings are modelled as `List Char` (one `Char` per Unicode code
point, matching CPython's `str` indexing/slicing granularity).  Each
definition is a shallow embedding of the correspondingly named function of
the repository source; stateful or effectful code is embedded as explicit
state passing, and fallible code returns `Except`/`Option`.
-/

namespace QuickE2B

/-- Python strings, one entry per code point. -/
abbrev Str := List Char

/-- Characters stripped by Python's `str.strip()` (the ASCII whitespace
subset, which covers every string the pipeline strips). -/
def isPySpace (c : Char) : Bool :=
  c = ' ' || c = '\t' || c = '\n' || c = '\x0d' || c = '\x0b' || c = '\x0c'

/-- `s.strip()`: drop whitespace from both ends. -/
def pyStrip (s : Str) : Str :=
  ((s.dropWhile isPySpace).reverse.dropWhile isPySpace).reverse

/-- Python's substring test `pat in s`. -/
def strContains (s pat : Str) : Bool :=
  pat.isPrefixOf s ||
    match s with
    | [] => false
    | _ :: rest => strContains rest pat

/-- ASCII lowercasing, Python `str.lower()` restricted to the ASCII
letters that the connection-error keyword test compares. -/
def asciiLower (s : Str) : Str :=
  s.map fun c => if 'A' ≤ c && c ≤ 'Z' then Char.ofNat (c.toNat + 32) else c

/-- Decimal digits of a natural number, most significant first. -/
def natDecimal (n : Nat) : Str :=
  Nat.toDigits 10 n

/-! ## Data model (`src/models.py`) -/

/-- `models.ExecutionResult`: normalized execution result.  `images`
holds decoded image byte buffers. -/
structure ExecutionResult where
  success : Bool
  output : Str
  error : Option Str
  images : List (List Nat)
  deriving Repr, DecidableEq

/-! ## Result Shaper (`src/result_optimizer.py`) -/

/-- The four display categories of `ResultOptimizer._classify_result`. -/
inductive ResultClass where
  | error
  | successWithImage
  | successWithOutput
  | emptyOutput
  deriving Repr, DecidableEq

/-- `ResultOptimizer._classify_result`: the `if`/`elif` chain classifying
an `ExecutionResult` (the `intent` argument of the source is unused by the
classification and omitted).  `result.output and result.output.strip()`
is Python truthiness of the string and of its stripped form. -/
def classify_result (r : ExecutionResult) : ResultClass :=
  if r.success = false then .error
  else if r.images ≠ [] then .successWithImage
  else if r.output ≠ [] ∧ pyStrip r.output ≠ [] then .successWithOutput
  else .emptyOutput

/-! ## Sandbox Runner (`src/code_executor.py`) -/

/-- Structured error object of a raw execution trace
(`execution.error`: `name`, `value`, optional `traceback`). -/
structure RawError where
  name : Str
  value : Str
  traceback : Option Str
  deriving Repr, DecidableEq

/-- One text stream of the raw trace.  The source probes
`logs.stdout`/`logs.out` (resp. `stderr`/`err`) and accepts either a list
of lines or a single string; the alternate attribute names normalize to
the same field here, and `missing` covers an absent attribute or a value
of any other type. -/
inductive StreamData where
  | ofList (lines : List Str)
  | ofStr (s : Str)
  | missing
  deriving Repr, DecidableEq

/-- The log object of the raw trace (`execution.logs` / `execution.log`). -/
structure RawLogs where
  stdout : StreamData
  stderr : StreamData
  deriving Repr, DecidableEq

/-- One entry of `execution.results`.  Image payloads are opaque handles
(`Nat`); `none` models an absent or falsy attribute.  `formats` models the
`res.formats` mapping probed for its `png`/`jpeg` keys. -/
structure RawResult where
  png : Option Nat
  jpeg : Option Nat
  formats : Option (Option Nat × Option Nat)
  deriving Repr, DecidableEq

/-- A raw execution trace as returned by the execution service. -/
structure RawExecution where
  error : Option RawError
  results : List RawResult
  logs : Option RawLogs
  deriving Repr, DecidableEq

/-- Stream extraction: `''.join(lines).strip()` for the list shape,
`s.strip()` for the string shape. -/
def streamText : StreamData → Option Str
  | .ofList lines => some (pyStrip lines.flatten)
  | .ofStr s => some (pyStrip s)
  | .missing => none

/-- Error message built from the structured error object:
`f"{name}: {value}"`, plus the traceback when present and non-empty. -/
def errorText (e : RawError) : Str :=
  e.name ++ (": ".toList) ++ e.value ++
    (match e.traceback with
     | some tb => if tb ≠ [] then '\n' :: tb else []
     | none => [])

/-- The image payload selected for one result entry:
`png`, else `jpeg`, else `formats.get('png') or formats.get('jpeg')`. -/
def imagePayload (res : RawResult) : Option Nat :=
  match res.png with
  | some p => some p
  | none =>
    match res.jpeg with
    | some j => some j
    | none =>
      match res.formats with
      | some (p?, j?) => match p? with | some p => some p | none => j?
      | none => none

/-- `CodeExecutor._is_curl_progress`: fixed keyword set for curl
download-progress noise. -/
def is_curl_progress (stderr_text : Str) : Bool :=
  [("% Total" : String), "% Received", "Dload", "Upload", "Speed", "Xferd"]
    |>.any fun kw => strContains stderr_text kw.toList

/-- `CodeExecutor._is_ipython_warning`: fixed keyword set for
notebook/deprecation-warning noise. -/
def is_ipython_warning (stderr_text : Str) : Bool :=
  [("IPython" : String), "ipykernel", "jupyter", "DeprecationWarning",
    "FutureWarning"]
    |>.any fun kw => strContains stderr_text kw.toList

/-- The truncation marker `"\n...(输出已截断)"` appended to over-long stdout. -/
def truncMarker : Str := "\n...(输出已截断)".toList

/-- Stdout truncation: `stdout_text[:max] + marker` when the text exceeds
the configured cap. -/
def truncateStdout (max_stdout_len : Nat) (s : Str) : Str :=
  if max_stdout_len < s.length then s.take max_stdout_len ++ truncMarker else s

/-- `CodeExecutor._process_execution_result`.  `convert` stands for
`_convert_image_to_bytes` (whose body depends on the external PIL/base64
libraries); decoding failures yield `none` and the payload is skipped. -/
def process_execution_result (convert : Nat → Option (List Nat))
    (max_stdout_len : Nat) (execution : RawExecution) : ExecutionResult :=
  let error_parts : List Str :=
    match execution.error with
    | some e => [errorText e]
    | none => []
  let images : List (List Nat) :=
    execution.results.filterMap fun res => (imagePayload res).bind convert
  let output_parts : List Str :=
    match execution.logs with
    | none => []
    | some logs =>
      match streamText logs.stdout with
      | some st => if st ≠ [] then [truncateStdout max_stdout_len st] else []
      | none => []
  let error_parts : List Str :=
    match execution.logs with
    | none => error_parts
    | some logs =>
      match streamText logs.stderr with
      | some se =>
        if se ≠ [] ∧ is_curl_progress se = false ∧ is_ipython_warning se = false
        then error_parts ++ [se] else error_parts
      | none => error_parts
  let output : Str := if output_parts = [] then [] else List.intercalate ['\n'] output_parts
  let error : Option Str :=
    if error_parts = [] then none else some (List.intercalate ['\n'] error_parts)
  { success := error.isNone, output := output, error := error, images := images }

/-- Outcome of one `AsyncSandbox.create` attempt. -/
inductive CreateOutcome where
  | ok
  | timeoutE
  | exn (msg : Str)
  deriving Repr, DecidableEq

/-- Outcome of the awaited `sandbox.run_code(code)`. -/
inductive ExecOutcome where
  | done (raw : RawExecution)
  | timeoutE
  | exn (msg : Str)
  deriving Repr, DecidableEq

/-- Outcome of the shielded, 5s-bounded `sandbox.kill()` teardown. -/
inductive CleanupOutcome where
  | ok
  | cancelled
  | failed (msg : Str)
  | loopClosed
  deriving Repr, DecidableEq

/-- Python exceptions that `CodeExecutor.execute` can propagate. -/
inductive PyExn where
  | valueError (msg : Str)
  | runtimeError (msg : Str)
  | reraised (msg : Str)
  deriving Repr, DecidableEq

/-- `f"创建沙箱超时（第 {attempt + 1} 次尝试）"`. -/
def createTimeoutMsg (attempt : Nat) : Str :=
  "创建沙箱超时（第 ".toList ++ natDecimal (attempt + 1) ++ " 次尝试）".toList

/-- The connectivity-failure message raised after exhausting retries. -/
def connectFailMsg (msg : Str) : Str :=
  "网络连接错误：无法连接到 E2B 服务器。\n可能原因：\n1. 代理服务器不可用\n2. 网络连接问题\n3. API 密钥无效\n\n技术详情：".toList ++ msg

/-- Python rendering of the optional last error inside an f-string. -/
def optionStr : Option Str → Str
  | some s => s
  | none => "None".toList

/-- The message raised when every creation attempt failed. -/
def createFailedMsg (max_retries : Nat) (lastErr : Option Str) : Str :=
  "创建沙箱失败：已重试 ".toList ++ natDecimal max_retries ++
    " 次。\n最后错误：".toList ++ optionStr lastErr

/-- `f"代码执行超时（限时 {timeout} 秒）"`. -/
def execTimeoutMsg (timeout : Nat) : Str :=
  "代码执行超时（限时 ".toList ++ natDecimal timeout ++ " 秒）".toList

/-- `f"运行时错误: {e}"`. -/
def runtimeErrorMsg (msg : Str) : Str :=
  "运行时错误: ".toList ++ msg

/-- The connectivity test applied to a creation failure:
`"ConnectError" in msg or "connection" in msg.lower()`. -/
def isConnectionError (msg : Str) : Bool :=
  strContains msg "ConnectError".toList ||
    strContains (asciiLower msg) "connection".toList

/-- How the provisioning retry loop ended. -/
inductive CreateEnd where
  | created
  | exhausted (lastErr : Option Str)
  deriving Repr, DecidableEq

/-- The `for attempt in range(max_retries)` provisioning loop: a timeout
continues to the next attempt, a connectivity error retries unless it is
the final attempt (then a descriptive `RuntimeError` is raised), any other
exception is re-raised immediately. -/
def createLoop (create : Nat → CreateOutcome) :
    Nat → Nat → Option Str → Except PyExn CreateEnd
  | 0, _, lastErr => .ok (.exhausted lastErr)
  | remaining + 1, attempt, lastErr =>
    match create attempt with
    | .ok => .ok .created
    | .timeoutE => createLoop create remaining (attempt + 1) (some (createTimeoutMsg attempt))
    | .exn m =>
      if isConnectionError m then
        if 0 < remaining then createLoop create remaining (attempt + 1) (some m)
        else .error (.runtimeError (connectFailMsg m))
      else .error (.reraised m)

/-- Provisioning with bounded retries; if the loop ends with no sandbox,
`RuntimeError` with the retry count and last error is raised. -/
def sandboxCreate (create : Nat → CreateOutcome) (max_retries : Nat) :
    Except PyExn Unit :=
  match createLoop create max_retries 0 none with
  | .error e => .error e
  | .ok .created => .ok ()
  | .ok (.exhausted lastErr) => .error (.runtimeError (createFailedMsg max_retries lastErr))

/-- `CodeExecutor._cleanup_sandbox`: every teardown outcome — success, a
closed event loop, cancellation, a timeout of the 5s bound or any other
exception — is swallowed (logged in the source), never raised. -/
def cleanup_sandbox : CleanupOutcome → Except PyExn Unit
  | .ok => .ok ()
  | .loopClosed => .ok ()
  | .cancelled => .ok ()
  | .failed _ => .ok ()

/-- The configuration values `CodeExecutor.execute` reads. -/
structure ExecConfig where
  api_key : Str
  timeout : Nat
  max_retries : Nat
  max_stdout_length : Nat

/-- The external-world outcomes one `execute` call can observe. -/
structure ExecEnv where
  create : Nat → CreateOutcome
  run : ExecOutcome
  cleanup : CleanupOutcome
  convert : Nat → Option (List Nat)

/-- Observable record of one `execute` call: its returned value or raised
exception, how many times `run_code` was awaited, and how many times the
teardown ran. -/
structure RunTrace where
  result : Except PyExn ExecutionResult
  runCalls : Nat
  cleanupCalls : Nat

/-- `CodeExecutor.execute`: validation, provisioning with retries, one
`run_code` under the wall-clock timeout (a timeout or exception there is
converted into a failed `ExecutionResult`, never retried), and teardown in
the `finally` block. -/
def code_executor_execute (cfg : ExecConfig) (env : ExecEnv) (code : Str) :
    RunTrace :=
  if pyStrip code = [] then
    ⟨.error (.valueError "代码不能为空".toList), 0, 0⟩
  else if cfg.api_key = [] then
    ⟨.error (.valueError "未配置 E2B API Key".toList), 0, 0⟩
  else
    match sandboxCreate env.create cfg.max_retries with
    | .error e => ⟨.error e, 0, 0⟩
    | .ok () =>
      let r : ExecutionResult :=
        match env.run with
        | .done raw => process_execution_result env.convert cfg.max_stdout_length raw
        | .timeoutE => ⟨false, [], some (execTimeoutMsg cfg.timeout), []⟩
        | .exn m => ⟨false, [], some (runtimeErrorMsg m), []⟩
      match cleanup_sandbox env.cleanup with
      | .ok () => ⟨.ok r, 1, 1⟩
      | .error e => ⟨.error e, 1, 1⟩

/-! ## Intent Classifier (`src/intent_recognizer.py`) -/

/-- Exact decimal value `mant * 10 ^ exp` denoted by a JSON number token
(CPython converts the token to a float; the finitely many literals this
pipeline compares are distinguished exactly by their decimal value). -/
structure DecNum where
  mant : Int
  exp : Int
  deriving Repr, DecidableEq

/-- JSON values as produced by `json.loads`. -/
inductive JVal where
  | jNull
  | jBool (b : Bool)
  | jNum (d : DecNum)
  | jStr (s : Str)
  | jArr (xs : List JVal)
  | jObj (fields : List (Str × JVal))
  deriving Repr

/-- First-match lookup in a Python dict modelled as an association list
with distinct keys. -/
def dictGet (d : List (Str × JVal)) (k : Str) : Option JVal :=
  match d with
  | [] => none
  | (k', v) :: rest => if k' = k then some v else dictGet rest k

/-- `d[k] = v`: overwrite in place, else append. -/
def dictSet (d : List (Str × JVal)) (k : Str) (v : JVal) : List (Str × JVal) :=
  match d with
  | [] => [(k, v)]
  | (k', v') :: rest =>
    if k' = k then (k', v) :: rest else (k', v') :: dictSet rest k v

/-- `base.update(upd)`: set every pair of `upd` in order. -/
def dictUpdate (base upd : List (Str × JVal)) : List (Str × JVal) :=
  upd.foldl (fun acc kv => dictSet acc kv.1 kv.2) base

/-- JSON whitespace. -/
def jsonWs (c : Char) : Bool :=
  c = ' ' || c = '\t' || c = '\n' || c = '\x0d'

/-- Hexadecimal digit value. -/
def hexVal (c : Char) : Option Nat :=
  if '0' ≤ c ∧ c ≤ '9' then some (c.toNat - 48)
  else if 'a' ≤ c ∧ c ≤ 'f' then some (c.toNat - 87)
  else if 'A' ≤ c ∧ c ≤ 'F' then some (c.toNat - 55)
  else none

/-- Decimal value of a digit list, most significant first. -/
def digitsToNat (ds : List Nat) : Nat :=
  ds.foldl (fun acc d => acc * 10 + d) 0

/-- Split leading decimal digits off a string. -/
def spanDigits : Str → (List Nat × Str)
  | [] => ([], [])
  | c :: rest =>
    if '0' ≤ c ∧ c ≤ '9' then
      let (ds, r) := spanDigits rest
      ((c.toNat - 48) :: ds, r)
    else ([], c :: rest)

/-- Parse the body of a JSON string after its opening quote, with enough
fuel for the remaining input; supports the standard escapes (`\uXXXX`
without surrogate pairing, which none of the compared texts use). -/
def parseJStr : Nat → Str → Option (Str × Str)
  | 0, _ => none
  | _, [] => none
  | fuel + 1, c :: rest =>
    if c = '"' then some ([], rest)
    else if c = '\\' then
      match rest with
      | [] => none
      | e :: rest2 =>
        let esc : Option (Char × Str) :=
          if e = '"' then some ('"', rest2)
          else if e = '\\' then some ('\\', rest2)
          else if e = '/' then some ('/', rest2)
          else if e = 'b' then some ('\x08', rest2)
          else if e = 'f' then some ('\x0c', rest2)
          else if e = 'n' then some ('\n', rest2)
          else if e = 'r' then some ('\x0d', rest2)
          else if e = 't' then some ('\t', rest2)
          else if e = 'u' then
            match rest2 with
            | h1 :: h2 :: h3 :: h4 :: rest3 =>
              match hexVal h1, hexVal h2, hexVal h3, hexVal h4 with
              | some a, some b, some c2, some d =>
                some (Char.ofNat (((a * 16 + b) * 16 + c2) * 16 + d), rest3)
              | _, _, _, _ => none
            | _ => none
          else none
        match esc with
        | some (ch, r) =>
          match parseJStr fuel r with
          | some (s, r2) => some (ch :: s, r2)
          | none => none
        | none => none
    else if c.toNat < 32 then none
    else
      match parseJStr fuel rest with
      | some (s, r2) => some (c :: s, r2)
      | none => none

/-- Parse a JSON number token. -/
def parseJNum (s : Str) : Option (DecNum × Str) :=
  let (neg, s1) : Bool × Str :=
    match s with
    | '-' :: r => (true, r)
    | _ => (false, s)
  match spanDigits s1 with
  | ([], _) => none
  | (d :: ds, s2) =>
    if d = 0 ∧ ds ≠ [] then none
    else
      let intDigits := d :: ds
      let (fracDigits, s3) : List Nat × Str :=
        match s2 with
        | '.' :: r => spanDigits r
        | _ => ([], s2)
      if s2 ≠ s3 ∧ fracDigits = [] then none
      else
        let (expVal, s4) : Option Int × Str :=
          match s3 with
          | e :: r =>
            if e = 'e' ∨ e = 'E' then
              let (esign, r2) : Bool × Str :=
                match r with
                | '-' :: r' => (true, r')
                | '+' :: r' => (false, r')
                | _ => (false, r)
              match spanDigits r2 with
              | ([], _) => (none, s3)
              | (eds, r3) =>
                ((some (if esign then -(digitsToNat eds : Int) else (digitsToNat eds : Int))), r3)
            else (some 0, s3)
          | [] => (some 0, s3)
        match expVal with
        | none => none
        | some ev =>
          let mantNat := digitsToNat (intDigits ++ fracDigits)
          let mant : Int := if neg then -(mantNat : Int) else (mantNat : Int)
          some (⟨mant, ev - fracDigits.length⟩, s4)

mutual

/-- Recursive-descent JSON value parser (leading whitespace allowed),
fuelled so that recursion is structural. -/
def parseJVal : Nat → Str → Option (JVal × Str)
  | 0, _ => none
  | fuel + 1, s =>
    let s := s.dropWhile jsonWs
    match s with
    | [] => none
    | c :: rest =>
      if c = '{' then
        parseJObj fuel (rest.dropWhile jsonWs) []
      else if c = '[' then
        parseJArr fuel (rest.dropWhile jsonWs) []
      else if c = '"' then
        match parseJStr (rest.length + 1) rest with
        | some (str, r) => some (.jStr str, r)
        | none => none
      else if ("true".toList).isPrefixOf s then some (.jBool true, s.drop 4)
      else if ("false".toList).isPrefixOf s then some (.jBool false, s.drop 5)
      else if ("null".toList).isPrefixOf s then some (.jNull, s.drop 4)
      else
        match parseJNum s with
        | some (d, r) => some (.jNum d, r)
        | none => none

/-- Object members after `{` (duplicate keys resolved last-wins, as
`json.loads` builds a `dict`). -/
def parseJObj (fuel : Nat) (s : Str) (acc : List (Str × JVal)) :
    Option (JVal × Str) :=
  match fuel with
  | 0 => none
  | fuel + 1 =>
    match s with
    | '}' :: rest => if acc.isEmpty then some (.jObj [], rest) else none
    | '"' :: rest =>
      match parseJStr (rest.length + 1) rest with
      | none => none
      | some (key, r) =>
        match r.dropWhile jsonWs with
        | ':' :: r2 =>
          match parseJVal fuel r2 with
          | none => none
          | some (v, r3) =>
            let acc := dictSet acc key v
            match r3.dropWhile jsonWs with
            | ',' :: r4 => parseJObj fuel (r4.dropWhile jsonWs) acc
            | '}' :: r4 => some (.jObj acc, r4)
            | _ => none
        | _ => none
    | _ => none

/-- Array items after `[`. -/
def parseJArr (fuel : Nat) (s : Str) (acc : List JVal) :
    Option (JVal × Str) :=
  match fuel with
  | 0 => none
  | fuel + 1 =>
    match s with
    | ']' :: rest => if acc.isEmpty then some (.jArr [], rest) else none
    | _ =>
      match parseJVal fuel s with
      | none => none
      | some (v, r) =>
        let acc := acc ++ [v]
        match r.dropWhile jsonWs with
        | ',' :: r2 => parseJArr fuel (r2.dropWhile jsonWs) acc
        | ']' :: r2 => some (.jArr acc, r2)
        | _ => none

end

/-- `json.loads`: parse one value, then require only trailing whitespace. -/
def jsonLoads (s : Str) : Option JVal :=
  match parseJVal (2 * s.length + 2) s with
  | some (v, rest) => if rest.dropWhile jsonWs = [] then some v else none
  | none => none

/-- Prefix of `s` up to and including its last `'}'`. -/
def takeThroughLastRBrace (s : Str) : Str :=
  (s.reverse.dropWhile (fun c => c ≠ '}')).reverse

/-- `re.search(r'\{.*\}', response, re.DOTALL)`: the leftmost match
starts at the first `'{'` that is followed by some `'}'`, and the greedy
`.*` extends it through the last `'}'` of the text. -/
def greedyJsonSpan : Str → Option Str
  | [] => none
  | c :: rest =>
    if c = '{' ∧ rest.contains '}' then
      some ('{' :: takeThroughLastRBrace rest)
    else greedyJsonSpan rest

/-- The default intent dictionary of `IntentRecognizer._parse_response`. -/
def default_intent : List (Str × JVal) :=
  [("task_type".toList, .jStr "other".toList),
   ("sub_type".toList, .jNull),
   ("parameters".toList, .jObj []),
   ("confidence".toList, .jNum ⟨3, -1⟩),
   ("needs_context".toList, .jBool false),
   ("context_refs".toList, .jArr [])]

/-- `IntentRecognizer._parse_response`: greedy JSON extraction, parse,
and merge over the defaults; the defaults are returned whenever no span
is found or parsing fails. -/
def parse_response (response : Str) : List (Str × JVal) :=
  match greedyJsonSpan response with
  | none => default_intent
  | some span =>
    match jsonLoads span with
    | some (.jObj fields) => dictUpdate default_intent fields
    | some _ => default_intent
    | none => default_intent

/-- The reserved parameters key for the raw user text. -/
def user_request_key : Str := "user_request".toList

/-- The recognizer's view of an `Intent`; field values are the untyped
Python values the source stores. -/
structure IntentM where
  task_type : JVal
  sub_type : JVal
  parameters : JVal
  confidence : JVal
  needs_context : JVal
  context_refs : JVal
  deriving Repr

/-- The fallback `Intent` built in the `except` clause of `recognize`. -/
def fallback_intent (user_request : Str) : IntentM :=
  { task_type := .jStr "other".toList
    sub_type := .jNull
    parameters := .jObj [(user_request_key, .jStr user_request)]
    confidence := .jNum ⟨3, -1⟩
    needs_context := .jBool false
    context_refs := .jArr [] }

/-- Python `==` between a `str` and an arbitrary value (equal only to an
equal string), as used by `in` on a list. -/
def jvalIsStrEq (key : Str) : JVal → Bool
  | .jStr s => s = key
  | _ => false

/-- `if "user_request" not in intent.parameters: intent.parameters[...] = ...`:
on a dict this inserts when absent; on a string `in` is a substring test
and on a list a membership test (assignment then raising `TypeError` when
the key was absent); on any other value `in` itself raises `TypeError`.
A raised error is caught by `recognize` and yields the fallback. -/
def insert_user_request (params : JVal) (user_request : Str) :
    Except Unit JVal :=
  match params with
  | .jObj fields =>
    if (dictGet fields user_request_key).isSome then .ok (.jObj fields)
    else .ok (.jObj (fields ++ [(user_request_key, .jStr user_request)]))
  | .jStr s =>
    if strContains s user_request_key then .ok (.jStr s) else .error ()
  | .jArr xs =>
    if xs.any (jvalIsStrEq user_request_key) then .ok (.jArr xs) else .error ()
  | _ => .error ()

/-- Outcome of `_call_llm` as observed by `recognize`: the raw completion
text, or any raised failure. -/
inductive LlmOutcome where
  | ok (content : Str)
  | fail

/-- The `try` body of `IntentRecognizer.recognize`: strip the completion
text (`_call_llm` returns `content.strip()`), parse, build the `Intent`
with per-field defaults, then force-insert the raw text into
`parameters`. -/
def recognize_inner (user_request : Str) : LlmOutcome → Except Unit IntentM
  | .fail => .error ()
  | .ok content =>
    let response := pyStrip content
    let intent_data := parse_response response
    let intent : IntentM :=
      { task_type := (dictGet intent_data "task_type".toList).getD (.jStr "other".toList)
        sub_type := (dictGet intent_data "sub_type".toList).getD .jNull
        parameters := (dictGet intent_data "parameters".toList).getD (.jObj [])
        confidence := (dictGet intent_data "confidence".toList).getD (.jNum ⟨5, -1⟩)
        needs_context := (dictGet intent_data "needs_context".toList).getD (.jBool false)
        context_refs := (dictGet intent_data "context_refs".toList).getD (.jArr []) }
    match insert_user_request intent.parameters user_request with
    | .ok p => .ok { intent with parameters := p }
    | .error () => .error ()

/-- `IntentRecognizer.recognize`: any internal failure is caught and the
fallback intent returned; the function never raises. -/
def intent_recognizer_recognize (user_request : Str) (llm : LlmOutcome) :
    IntentM :=
  match recognize_inner user_request llm with
  | .ok i => i
  | .error () => fallback_intent user_request

/-- Modelled from the spec: the spec's own description of extraction —
"the first balanced `{...}` JSON object found in the response text" — as
a depth-counting scan from the first `'{'`.  Used only to compare the
spec's description with the source's greedy regex. -/
def balancedScan : Str → Nat → Str → Option Str
  | [], _, _ => none
  | c :: rest, depth, acc =>
    if c = '}' then
      if depth = 1 then some ((c :: acc).reverse)
      else balancedScan rest (depth - 1) (c :: acc)
    else if c = '{' then balancedScan rest (depth + 1) (c :: acc)
    else balancedScan rest depth (c :: acc)

/-- Modelled from the spec: first balanced brace-delimited span. -/
def firstBalancedSpan : Str → Option Str
  | [] => none
  | c :: rest =>
    if c = '{' then balancedScan rest 1 [c] else firstBalancedSpan rest

/-! ## Code Synthesizer (`src/code_generator.py`, `src/models.py`) -/

/-- Scalar Python parameter values. -/
inductive Atom where
  | aStr (s : Str)
  | aInt (n : Int)
  | aBool (b : Bool)
  | aNone
  deriving Repr, DecidableEq

/-- Python parameter values as they reach `_format_parameter_value`:
scalars, and the single-level list/dict containers the pipeline's intent
parameters and template defaults carry. -/
inductive Value where
  | vStr (s : Str)
  | vInt (n : Int)
  | vBool (b : Bool)
  | vNone
  | vList (xs : List Atom)
  | vDict (kvs : List (Atom × Atom))
  deriving Repr, DecidableEq

/-- Decimal rendering of a Python `int` (`str(n)` / `repr(n)`). -/
def intDecimal (n : Int) : Str :=
  if n < 0 then '-' :: natDecimal n.natAbs else natDecimal n.toNat

/-- One character of `repr(str)` output under the chosen quote
(backslash, quote, newline, carriage return and tab are escaped; the
pipeline's parameter strings contain no other characters CPython would
escape). -/
def pyEscapeChar (quote : Char) (c : Char) : Str :=
  if c = '\\' then ['\\', '\\']
  else if c = quote then ['\\', quote]
  else if c = '\n' then ['\\', 'n']
  else if c = '\x0d' then ['\\', 'r']
  else if c = '\t' then ['\\', 't']
  else [c]

/-- CPython `repr` of a `str`: single quotes, or double quotes when the
text contains a single quote but no double quote. -/
def pyReprStr (s : Str) : Str :=
  let quote : Char := if s.contains '\'' ∧ ¬ s.contains '"' then '"' else '\''
  quote :: (s.map (pyEscapeChar quote)).flatten ++ [quote]

/-- `repr` of a scalar (also used for container elements). -/
def atomRepr : Atom → Str
  | .aStr s => pyReprStr s
  | .aInt n => intDecimal n
  | .aBool b => if b then "True".toList else "False".toList
  | .aNone => "None".toList

/-- `CodeGenerator._format_parameter_value`: strings and containers via
`repr`, `None` as the literal `None`, everything else via `str`. -/
def format_parameter_value (v : Value) : Str :=
  match v with
  | .vStr s => pyReprStr s
  | .vList xs =>
    '[' :: (List.intercalate ", ".toList (xs.map atomRepr)) ++ [']']
  | .vDict kvs =>
    '{' :: (List.intercalate ", ".toList
      (kvs.map fun kv => atomRepr kv.1 ++ ": ".toList ++ atomRepr kv.2)) ++ ['}']
  | .vNone => "None".toList
  | .vInt n => intDecimal n
  | .vBool b => if b then "True".toList else "False".toList

/-- One parameter specification of a template
(`parameters[name] = {"type": ..., "required": ..., "default": ...}`);
`default = none` models both an absent key and an explicit `None`, which
`param_def.get("default")` cannot distinguish. -/
structure ParamSpec where
  required : Bool
  default : Option Value

/-- The template fields `_fill_template` and `validate_parameters`
read. -/
structure TemplateM where
  code_template : Str
  parameters : List (Str × ParamSpec)

/-- `models.Template.validate_parameters`: first missing required
parameter fails with its message. -/
def validate_parameters :
    List (Str × ParamSpec) → List (Str × Value) → Bool × Option Str
  | [], _ => (true, none)
  | (name, spec) :: rest, params =>
    if spec.required ∧ ¬ (params.map Prod.fst).contains name then
      (false, some ("缺少必需参数: ".toList ++ name))
    else validate_parameters rest params

/-- Fuelled scan of Python `str.replace`: every step consumes at least
one input character, so fuel equal to the input length is exact. -/
def replaceAllGo (pat repl : Str) : Nat → Str → Str
  | 0, s => s
  | fuel + 1, s =>
    match s with
    | [] => []
    | c :: rest =>
      match pat with
      | [] => c :: rest
      | p :: ps =>
        if p = c ∧ ps.isPrefixOf rest then
          repl ++ replaceAllGo pat repl fuel (rest.drop ps.length)
        else c :: replaceAllGo pat repl fuel rest

/-- Python `code.replace(pat, repl)` for a non-empty pattern: scan left
to right, replacing non-overlapping occurrences (the placeholder patterns
`"{name}"` are never empty; for an empty pattern the scan is returned
unchanged here, a case no caller reaches). -/
def replaceAll (pat repl s : Str) : Str :=
  replaceAllGo pat repl s.length s

/-- First loop of `CodeGenerator._fill_template`: substitute each
user-supplied parameter whose placeholder is present. -/
def fill_user_pass (code : Str) : List (Str × Value) → Str
  | [] => code
  | (key, value) :: rest =>
    fill_user_pass
      (if strContains code ('{' :: (key ++ ['}']))
       then replaceAll ('{' :: (key ++ ['}'])) (format_parameter_value value) code
       else code)
      rest

/-- Second loop of `_fill_template`: for each still-present placeholder,
substitute the declared default unless it is null/absent. -/
def fill_defaults_pass (code : Str) : List (Str × ParamSpec) → Str
  | [] => code
  | (name, spec) :: rest =>
    fill_defaults_pass
      (if strContains code ('{' :: (name ++ ['}'])) then
         match spec.default with
         | some dv =>
           replaceAll ('{' :: (name ++ ['}'])) (format_parameter_value dv) code
         | none => code
       else code)
      rest

/-- `CodeGenerator._fill_template`. -/
def fill_template (tmpl : TemplateM) (parameters : List (Str × Value)) : Str :=
  fill_defaults_pass (fill_user_pass tmpl.code_template parameters) tmpl.parameters

/-- The recognized Python code keywords of `_validate_code`. -/
def code_keywords : List Str :=
  [("import" : String), "def", "class", "if", "for", "while", "try", "print"]
    |>.map String.toList

/-- `CodeGenerator._validate_code`.  The final syntactic check
(`compile(...)` with top-level await allowed) is the external CPython
parser, abstracted as `syntaxOk`; the length and keyword rejections fire
before it. -/
def validate_code (syntaxOk : Str → Bool) (code : Str) : Bool :=
  if code.isEmpty || code.length < 10 then false
  else if ¬ code_keywords.any (fun kw => strContains code kw) then false
  else syntaxOk code

/-! ### Placeholder-grammar view of template bodies

Verification-side machinery for the filling theorem: a template body that
is an alternation of brace-free literal characters and `{name}`
placeholders is represented as a token list, and the character-level
`replaceAll` is related to token-level substitution. -/

/-- No brace characters. -/
def bracelessB (s : Str) : Bool :=
  s.all fun c => !(c = '{' || c = '}')

/-- A template-body token: a literal character or a `{name}`
placeholder. -/
inductive Tok where
  | lit (c : Char)
  | ph (name : Str)
  deriving Repr, DecidableEq

/-- Character sequence denoted by a token list. -/
def flattenToks : List Tok → Str
  | [] => []
  | .lit c :: ts => c :: flattenToks ts
  | .ph n :: ts => '{' :: (n ++ '}' :: flattenToks ts)

/-- Well-formedness: literal characters and names are brace-free. -/
def tokWF : Tok → Bool
  | .lit c => !(c = '{' || c = '}')
  | .ph n => bracelessB n

/-- All tokens well-formed. -/
def toksWF (ts : List Tok) : Bool := ts.all tokWF

/-- Token-level substitution of one placeholder by literal text. -/
def substTok (key repl : Str) : List Tok → List Tok
  | [] => []
  | .lit c :: ts => .lit c :: substTok key repl ts
  | .ph n :: ts =>
    if n = key then repl.map .lit ++ substTok key repl ts
    else .ph n :: substTok key repl ts

/-- Token-level view of the user-parameter pass. -/
def substUser (params : List (Str × Value)) (ts : List Tok) : List Tok :=
  params.foldl (fun acc kv => substTok kv.1 (format_parameter_value kv.2) acc) ts

/-- Token-level view of the defaults pass. -/
def substDefaults (tparams : List (Str × ParamSpec)) (ts : List Tok) : List Tok :=
  tparams.foldl
    (fun acc kv =>
      match kv.2.default with
      | some dv => substTok kv.1 (format_parameter_value dv) acc
      | none => acc)
    ts

/-! ## Plugin tool (`src/plugin.py`) -/

/-- Lookup in the session-keyed hash map `self.code_hashes`. -/
def hashGet (d : List (Str × Str)) (k : Str) : Option Str :=
  match d with
  | [] => none
  | (k', v) :: rest => if k' = k then some v else hashGet rest k

/-- `self.code_hashes[session_id] = code_hash`. -/
def hashSet (d : List (Str × Str)) (k v : Str) : List (Str × Str) :=
  match d with
  | [] => [(k, v)]
  | (k', v') :: rest =>
    if k' = k then (k', v) :: rest else (k', v') :: hashSet rest k v

/-- `E2BSandboxTool._check_duplicate`, parameterized by the content-hash
function (`hashlib.md5(code.encode()).hexdigest()` in the source, an
external primitive; the behaviour below holds for every hash function):
returns `True` without updating when the session's stored hash equals the
new one, else stores the new hash and returns `False`. -/
def check_duplicate (md5hex : Str → Str)
    (code_hashes : List (Str × Str)) (session_id code : Str) :
    Bool × List (Str × Str) :=
  let code_hash := md5hex code
  if hashGet code_hashes session_id = some code_hash then
    (true, code_hashes)
  else
    (false, hashSet code_hashes session_id code_hash)

/-- Per-tool state: the session-keyed map of last-submission hashes. -/
structure ToolState where
  code_hashes : List (Str × Str)
  deriving Repr, DecidableEq

/-- The external outcomes one `E2BSandboxTool.execute` call observes:
whether the component imports succeed, and the code-generation result
(the later execution-service outcomes are caught internally and do not
affect the state or control flow modelled here). -/
structure ToolOracles where
  importOk : Bool
  genOut : Except Str Str

/-- Observables of one `execute` call: the tool state afterwards and
whether `code_executor.execute` (the execution service) was awaited. -/
structure ToolRun where
  state : ToolState
  executorCalled : Bool
  deriving Repr, DecidableEq

/-- Control-flow skeleton of `E2BSandboxTool.execute`: empty input
returns an error reply; an import failure or a generation failure is
caught and returns an error reply; otherwise the generated code is
submitted to the execution service (whose own failures are caught after
the fact).  No path consults `_check_duplicate` or touches
`code_hashes`. -/
def tool_execute (st : ToolState) (function_args_code : Str)
    (oc : ToolOracles) : ToolRun :=
  if pyStrip function_args_code = [] then ⟨st, false⟩
  else if oc.importOk = false then ⟨st, false⟩
  else
    match oc.genOut with
    | .error _ => ⟨st, false⟩
    | .ok _ => ⟨st, true⟩

/-! ## Theorems -/

/-- C1: the Result Shaper's classification is total and follows the
strict order error → successWithImage → successWithOutput → emptyOutput;
`error` is selected iff `succeeded` is false. -/
theorem classify_result_total (r : ExecutionResult) :
    (classify_result r = .error ↔ r.success = false) ∧
    (classify_result r = .successWithImage ↔
      r.success = true ∧ r.images ≠ []) ∧
    (classify_result r = .successWithOutput ↔
      r.success = true ∧ r.images = [] ∧ pyStrip r.output ≠ []) ∧
    (classify_result r = .emptyOutput ↔
      r.success = true ∧ r.images = [] ∧ pyStrip r.output = []) := by
  have hne : pyStrip r.output ≠ [] → r.output ≠ [] := by
    intro h hout
    simp [hout, pyStrip] at h
  unfold classify_result
  rcases r with ⟨s, out, err, imgs⟩
  cases s <;>
    rcases imgs with _ | ⟨i, is⟩ <;>
      by_cases hstrip : pyStrip out = [] <;> simp_all

/-- The teardown helper swallows every outcome. -/
theorem cleanup_sandbox_never_raises (c : CleanupOutcome) :
    cleanup_sandbox c = .ok () := by
  cases c <;> rfl

/-- `_process_execution_result` builds `success` as `error is None`. -/
theorem process_success_iff (convert : Nat → Option (List Nat))
    (maxLen : Nat) (exec : RawExecution) :
    (process_execution_result convert maxLen exec).success
      = (process_execution_result convert maxLen exec).error.isNone := rfl

/-- C2: every `ExecutionResult` returned by the runner — built from a
normal trace, an execution timeout, or an execution exception — satisfies
`succeeded == (capturedError is null)`. -/
theorem runner_success_iff_no_error (cfg : ExecConfig) (env : ExecEnv)
    (code : Str) (r : ExecutionResult)
    (h : (code_executor_execute cfg env code).result = .ok r) :
    r.success = r.error.isNone := by
  rcases env with ⟨create, run, cleanup, convert⟩
  unfold code_executor_execute at h
  rw [cleanup_sandbox_never_raises] at h
  split at h
  · simp at h
  split at h
  · simp at h
  split at h
  · simp at h
  · simp only at h
    cases run with
    | done raw =>
      simp only [Except.ok.injEq] at h
      subst h
      exact process_success_iff convert cfg.max_stdout_length raw
    | timeoutE =>
      simp only [Except.ok.injEq] at h
      subst h
      rfl
    | exn m =>
      simp only [Except.ok.injEq] at h
      subst h
      rfl

/-- Witness for C2 at a concrete successful run. -/
theorem runner_success_iff_no_error_witness :
    (code_executor_execute ⟨['k'], 60, 2, 5000⟩
        ⟨fun _ => .ok, .done ⟨none, [], none⟩, .ok, fun _ => none⟩
        "print(1)".toList).result = .ok ⟨true, [], none, []⟩ ∧
    (true : Bool) = (none : Option Str).isNone :=
  ⟨rfl, runner_success_iff_no_error ⟨['k'], 60, 2, 5000⟩
    ⟨fun _ => .ok, .done ⟨none, [], none⟩, .ok, fun _ => none⟩
    "print(1)".toList ⟨true, [], none, []⟩ rfl⟩

/-- C5: an execution timeout is terminal — `run_code` is awaited exactly
once and the call returns `succeeded=false` with the timeout-specific
message; and on every path (normal, timeout, exception) the teardown runs
exactly once, and its outcome never changes the returned result and is
never raised to the caller. -/
theorem exec_timeout_terminal_and_cleanup (cfg : ExecConfig)
    (create : Nat → CreateOutcome) (cl : CleanupOutcome)
    (convert : Nat → Option (List Nat)) (code : Str)
    (hcode : pyStrip code ≠ [])
    (hkey : cfg.api_key ≠ [])
    (hcreate : sandboxCreate create cfg.max_retries = .ok ()) :
    code_executor_execute cfg ⟨create, .timeoutE, cl, convert⟩ code =
      ⟨.ok ⟨false, [], some (execTimeoutMsg cfg.timeout), []⟩, 1, 1⟩ ∧
    (∀ (run : ExecOutcome) (cl' : CleanupOutcome),
      (code_executor_execute cfg ⟨create, run, cl', convert⟩ code).cleanupCalls = 1 ∧
      (code_executor_execute cfg ⟨create, run, cl', convert⟩ code).result =
        (code_executor_execute cfg ⟨create, run, .ok, convert⟩ code).result) := by
  constructor
  · unfold code_executor_execute
    rw [if_neg hcode, if_neg hkey, hcreate, cleanup_sandbox_never_raises]
  · intro run cl'
    simp only [code_executor_execute, if_neg hcode, if_neg hkey, hcreate,
      cleanup_sandbox_never_raises]
    exact ⟨by trivial, by trivial⟩

/-- Witness for C5 at a concrete configuration. -/
theorem exec_timeout_terminal_and_cleanup_witness :
    pyStrip "print(1)".toList ≠ [] ∧
    (['k'] : Str) ≠ [] ∧
    sandboxCreate (fun _ => .ok) 2 = .ok () ∧
    code_executor_execute ⟨['k'], 60, 2, 5000⟩
        ⟨fun _ => .ok, .timeoutE, .failed ['x'], fun _ => none⟩
        "print(1)".toList =
      ⟨.ok ⟨false, [], some (execTimeoutMsg 60), []⟩, 1, 1⟩ :=
  ⟨by decide, by decide, rfl,
    (exec_timeout_terminal_and_cleanup ⟨['k'], 60, 2, 5000⟩
      (fun _ => .ok) (.failed ['x']) (fun _ => none) "print(1)".toList
      (by decide) (by decide) rfl).1⟩

/-- C8: when the stripped stdout text exceeds the configured cap, the
rendered `capturedOutput` is exactly the cap-length prefix plus the
truncation marker; its length is `cap + marker-length` and its prefix
matches the original character for character.  The embedding works on
whole Unicode code points (`Char`), as does CPython string slicing, so
truncation never splits a code point. -/
theorem stdout_truncation (convert : Nat → Option (List Nat))
    (maxLen : Nat) (exec : RawExecution) (logs : RawLogs) (st : Str)
    (hlogs : exec.logs = some logs)
    (hst : streamText logs.stdout = some st)
    (hlen : maxLen < st.length) :
    (process_execution_result convert maxLen exec).output
        = st.take maxLen ++ truncMarker ∧
    (process_execution_result convert maxLen exec).output.length
        = maxLen + truncMarker.length ∧
    (process_execution_result convert maxLen exec).output.take maxLen
        = st.take maxLen := by
  have hne : st ≠ [] := by
    intro h
    rw [h] at hlen
    simp at hlen
  have hout : (process_execution_result convert maxLen exec).output
      = st.take maxLen ++ truncMarker := by
    simp only [process_execution_result, hlogs, hst]
    simp only [truncateStdout, hne, if_pos hlen]
    simp [List.intercalate, hne]
  refine ⟨hout, ?_, ?_⟩
  · rw [hout]
    simp [List.length_take, Nat.min_eq_left (Nat.le_of_lt hlen)]
  · rw [hout, List.take_append_of_le_length, List.take_take]
    · simp
    · simp [List.length_take, Nat.min_eq_left (Nat.le_of_lt hlen)]

/-- Witness for C8 at a concrete over-long stdout. -/
theorem stdout_truncation_witness :
    (⟨none, [], some ⟨.ofStr "hello world".toList, .missing⟩⟩ :
        RawExecution).logs = some ⟨.ofStr "hello world".toList, .missing⟩ ∧
    streamText (.ofStr "hello world".toList) = some "hello world".toList ∧
    5 < "hello world".toList.length ∧
    (process_execution_result (fun _ => none) 5
        ⟨none, [], some ⟨.ofStr "hello world".toList, .missing⟩⟩).output
      = "hello".toList ++ truncMarker :=
  ⟨rfl, rfl, by decide,
    ((stdout_truncation (fun _ => none) 5
        ⟨none, [], some ⟨.ofStr "hello world".toList, .missing⟩⟩
        ⟨.ofStr "hello world".toList, .missing⟩ "hello world".toList
        rfl rfl (by decide)).1).trans (by decide)⟩

/-- C10: a trace with no structured error object whose stripped stderr is
non-empty and not recognized as curl-progress or notebook/deprecation
noise yields `capturedError` equal to that stderr text and
`succeeded=false`. -/
theorem stderr_marks_failure (convert : Nat → Option (List Nat))
    (maxLen : Nat) (exec : RawExecution) (logs : RawLogs) (se : Str)
    (herr : exec.error = none)
    (hlogs : exec.logs = some logs)
    (hse : streamText logs.stderr = some se)
    (hne : se ≠ [])
    (hcurl : is_curl_progress se = false)
    (hipy : is_ipython_warning se = false) :
    (process_execution_result convert maxLen exec).error = some se ∧
    (process_execution_result convert maxLen exec).success = false := by
  have herr2 : (process_execution_result convert maxLen exec).error = some se := by
    simp only [process_execution_result, herr, hlogs, hse]
    simp [hne, hcurl, hipy, List.intercalate]
  refine ⟨herr2, ?_⟩
  rw [process_success_iff, herr2]
  rfl

/-- Witness for C10 at a concrete unfiltered stderr. -/
theorem stderr_marks_failure_witness :
    is_curl_progress "boom: division by zero".toList = false ∧
    is_ipython_warning "boom: division by zero".toList = false ∧
    (process_execution_result (fun _ => none) 5000
        ⟨none, [], some ⟨.missing, .ofStr "boom: division by zero".toList⟩⟩).error
      = some "boom: division by zero".toList ∧
    (process_execution_result (fun _ => none) 5000
        ⟨none, [], some ⟨.missing, .ofStr "boom: division by zero".toList⟩⟩).success
      = false :=
  ⟨by decide, by decide,
    (stderr_marks_failure (fun _ => none) 5000
      ⟨none, [], some ⟨.missing, .ofStr "boom: division by zero".toList⟩⟩
      ⟨.missing, .ofStr "boom: division by zero".toList⟩
      "boom: division by zero".toList
      rfl rfl rfl (by decide) (by decide) (by decide)).1,
    (stderr_marks_failure (fun _ => none) 5000
      ⟨none, [], some ⟨.missing, .ofStr "boom: division by zero".toList⟩⟩
      ⟨.missing, .ofStr "boom: division by zero".toList⟩
      "boom: division by zero".toList
      rfl rfl rfl (by decide) (by decide) (by decide)).2⟩

/-- `_parse_response` yields the defaults when extraction or parsing
fails. -/
theorem parse_response_default (r : Str)
    (h : greedyJsonSpan r = none ∨
      ∃ span, greedyJsonSpan r = some span ∧ jsonLoads span = none) :
    parse_response r = default_intent := by
  rcases h with h | ⟨span, hs, hp⟩
  · simp [parse_response, h]
  · simp [parse_response, hs, hp]

/-- C3: `recognize` never raises — it is a total function into `IntentM`
— and on each internal failure (completion failure, no JSON span found,
or malformed JSON in the span) it returns the fallback descriptor with
`taskCategory="other"`, `confidence=0.3`, and the raw user text under the
reserved parameters key. -/
theorem recognize_fallback (u : Str) (llm : LlmOutcome)
    (h : llm = .fail ∨
      ∃ r, llm = .ok r ∧
        (greedyJsonSpan (pyStrip r) = none ∨
          ∃ span, greedyJsonSpan (pyStrip r) = some span ∧ jsonLoads span = none)) :
    intent_recognizer_recognize u llm = fallback_intent u ∧
    (fallback_intent u).task_type = .jStr "other".toList ∧
    (fallback_intent u).confidence = .jNum ⟨3, -1⟩ ∧
    (fallback_intent u).parameters = .jObj [(user_request_key, .jStr u)] := by
  refine ⟨?_, rfl, rfl, rfl⟩
  rcases h with h | ⟨r, rfl, h⟩
  · subst h; rfl
  · have hpr : parse_response (pyStrip r) = default_intent :=
      parse_response_default _ h
    simp only [intent_recognizer_recognize, recognize_inner, hpr]
    rfl

/-- Witness for C3: a completion answer with no JSON object at all. -/
theorem recognize_fallback_witness :
    greedyJsonSpan (pyStrip "no json at all".toList) = none ∧
    intent_recognizer_recognize "draw a cat".toList
        (.ok "no json at all".toList)
      = fallback_intent "draw a cat".toList :=
  ⟨rfl,
    (recognize_fallback "draw a cat".toList (.ok "no json at all".toList)
      (Or.inr ⟨"no json at all".toList, rfl, Or.inl rfl⟩)).1⟩

/-- C6 counterexample: a response holding two balanced objects.  The
greedy scan spans from the first `{` to the last `}`, the span is not
valid JSON, and the recognizer falls back to `task_type="other"` — while
the claim's "first balanced object" (`{"task_type": "web"}`) parses fine
and would have produced `task_type="web"` after the merge. -/
theorem recognize_not_first_balanced :
    (intent_recognizer_recognize "hi".toList
        (.ok "\x7b\"task_type\": \"web\"\x7d x \x7b\"a\": 1\x7d".toList)).task_type
      = .jStr "other".toList ∧
    firstBalancedSpan "\x7b\"task_type\": \"web\"\x7d x \x7b\"a\": 1\x7d".toList
      = some "\x7b\"task_type\": \"web\"\x7d".toList ∧
    jsonLoads "\x7b\"task_type\": \"web\"\x7d".toList
      = some (.jObj [("task_type".toList, .jStr "web".toList)]) ∧
    dictGet (dictUpdate default_intent [("task_type".toList, .jStr "web".toList)])
        "task_type".toList
      = some (.jStr "web".toList) ∧
    JVal.jStr "web".toList ≠ JVal.jStr "other".toList :=
  ⟨rfl, rfl, rfl, rfl,
    fun h => by injection h with h'; exact absurd h' (by decide)⟩

/-- Lookup after a single in-place set. -/
theorem dictGet_dictSet (d : List (Str × JVal)) (k k' : Str) (v : JVal) :
    dictGet (dictSet d k v) k' = if k = k' then some v else dictGet d k' := by
  induction d with
  | nil =>
    by_cases h : k = k' <;> simp [dictSet, dictGet, h]
  | cons kv rest ih =>
    obtain ⟨a, b⟩ := kv
    by_cases hak : a = k
    · subst hak
      by_cases hk' : a = k' <;> simp [dictSet, dictGet, hk']
    · by_cases hk' : a = k'
      · subst hk'
        have : ¬ k = a := fun h => hak h.symm
        simp [dictSet, dictGet, hak, this]
      · simp [dictSet, dictGet, hak, hk', ih]

/-- An absent key looks up to `none`. -/
theorem dictGet_eq_none (d : List (Str × JVal)) (k : Str)
    (h : k ∉ d.map Prod.fst) :
    dictGet d k = none := by
  induction d with
  | nil => rfl
  | cons kv rest ih =>
    obtain ⟨a, b⟩ := kv
    simp only [List.map_cons, List.mem_cons] at h
    push_neg at h
    have : a ≠ k := fun he => h.1 he.symm
    simp [dictGet, this, ih h.2]

/-- `base.update(upd)` looks up to `upd`'s value when present, else to
`base`'s (for `upd` with distinct keys, as `json.loads` produces). -/
theorem dictGet_dictUpdate (base upd : List (Str × JVal)) (k : Str)
    (h : (upd.map Prod.fst).Nodup) :
    dictGet (dictUpdate base upd) k =
      match dictGet upd k with
      | some v => some v
      | none => dictGet base k := by
  induction upd generalizing base with
  | nil => rfl
  | cons kv rest ih =>
    obtain ⟨a, b⟩ := kv
    simp only [List.map_cons, List.nodup_cons] at h
    have step : dictUpdate base ((a, b) :: rest) = dictUpdate (dictSet base a b) rest := rfl
    rw [step, ih _ h.2]
    by_cases hak : a = k
    · subst hak
      rw [dictGet_eq_none rest a h.1]
      simp [dictGet, dictGet_dictSet]
    · have : ¬ a = k := hak
      cases hrest : dictGet rest k <;>
        simp [dictGet, this, dictGet_dictSet, hak, hrest]

/-- The force-inserted key is present afterwards. -/
theorem dictGet_append_self (pf : List (Str × JVal)) (k : Str) (v : JVal) :
    (dictGet (pf ++ [(k, v)]) k).isSome = true := by
  induction pf with
  | nil => simp [dictGet]
  | cons kv rest ih =>
    obtain ⟨a, b⟩ := kv
    by_cases hak : a = k <;> simp [dictGet, hak, ih]

/-- C6 (amended): the recognizer extracts the maximal first-`{`-to-
last-`}` span; when that span parses as a JSON object, every descriptor
field is the parsed value when the model supplied one and the default
otherwise, and the raw user text is force-inserted into `parameters`
under its reserved key when absent. -/
theorem recognize_greedy_merge (u r span : Str) (fs pf : List (Str × JVal))
    (hspan : greedyJsonSpan (pyStrip r) = some span)
    (hparse : jsonLoads span = some (.jObj fs))
    (hnodup : (fs.map Prod.fst).Nodup)
    (hpf : dictGet (dictUpdate default_intent fs) "parameters".toList
        = some (.jObj pf)) :
    (intent_recognizer_recognize u (.ok r)).task_type
        = (dictGet fs "task_type".toList).getD (.jStr "other".toList) ∧
    (intent_recognizer_recognize u (.ok r)).sub_type
        = (dictGet fs "sub_type".toList).getD .jNull ∧
    (intent_recognizer_recognize u (.ok r)).confidence
        = (dictGet fs "confidence".toList).getD (.jNum ⟨3, -1⟩) ∧
    (intent_recognizer_recognize u (.ok r)).needs_context
        = (dictGet fs "needs_context".toList).getD (.jBool false) ∧
    (intent_recognizer_recognize u (.ok r)).context_refs
        = (dictGet fs "context_refs".toList).getD (.jArr []) ∧
    (intent_recognizer_recognize u (.ok r)).parameters
        = .jObj (if (dictGet pf user_request_key).isSome then pf
                 else pf ++ [(user_request_key, .jStr u)]) ∧
    (match (intent_recognizer_recognize u (.ok r)).parameters with
      | .jObj rp => (dictGet rp user_request_key).isSome
      | _ => false) = true := by
  have hpr : parse_response (pyStrip r) = dictUpdate default_intent fs := by
    simp [parse_response, hspan, hparse]
  have hfield : ∀ k dflt, dictGet default_intent k = some dflt →
      dictGet (dictUpdate default_intent fs) k = some ((dictGet fs k).getD dflt) := by
    intro k dflt hk
    rw [dictGet_dictUpdate _ _ _ hnodup, hk]
    cases dictGet fs k <;> rfl
  have hins : insert_user_request (.jObj pf) u
      = .ok (.jObj (if (dictGet pf user_request_key).isSome then pf
                    else pf ++ [(user_request_key, .jStr u)])) := by
    by_cases hin : (dictGet pf user_request_key).isSome <;>
      simp [insert_user_request, hin]
  have hrec : intent_recognizer_recognize u (.ok r) =
      { task_type := (dictGet fs "task_type".toList).getD (.jStr "other".toList)
        sub_type := (dictGet fs "sub_type".toList).getD .jNull
        parameters := .jObj (if (dictGet pf user_request_key).isSome then pf
                 else pf ++ [(user_request_key, .jStr u)])
        confidence := (dictGet fs "confidence".toList).getD (.jNum ⟨3, -1⟩)
        needs_context := (dictGet fs "needs_context".toList).getD (.jBool false)
        context_refs := (dictGet fs "context_refs".toList).getD (.jArr []) } := by
    simp only [intent_recognizer_recognize, recognize_inner, hpr,
      hfield "task_type".toList (.jStr "other".toList) rfl,
      hfield "sub_type".toList .jNull rfl,
      hfield "confidence".toList (.jNum ⟨3, -1⟩) rfl,
      hfield "needs_context".toList (.jBool false) rfl,
      hfield "context_refs".toList (.jArr []) rfl,
      hpf, Option.getD_some, hins]
  refine ⟨by rw [hrec], by rw [hrec], by rw [hrec], by rw [hrec], by rw [hrec],
    by rw [hrec], ?_⟩
  rw [hrec]
  by_cases hin : (dictGet pf user_request_key).isSome
  · simp [hin]
  · simp [hin, dictGet_append_self]

/-- Witness for the amended C6 at a concrete partial JSON answer. -/
theorem recognize_greedy_merge_witness :
    greedyJsonSpan (pyStrip "\x7b\"task_type\": \"plot\"\x7d".toList)
      = some "\x7b\"task_type\": \"plot\"\x7d".toList ∧
    jsonLoads "\x7b\"task_type\": \"plot\"\x7d".toList
      = some (.jObj [("task_type".toList, .jStr "plot".toList)]) ∧
    (intent_recognizer_recognize "hi".toList
        (.ok "\x7b\"task_type\": \"plot\"\x7d".toList)).task_type
      = .jStr "plot".toList ∧
    (intent_recognizer_recognize "hi".toList
        (.ok "\x7b\"task_type\": \"plot\"\x7d".toList)).confidence
      = .jNum ⟨3, -1⟩ ∧
    (intent_recognizer_recognize "hi".toList
        (.ok "\x7b\"task_type\": \"plot\"\x7d".toList)).parameters
      = .jObj [(user_request_key, .jStr "hi".toList)] := by
  have h := recognize_greedy_merge "hi".toList
    "\x7b\"task_type\": \"plot\"\x7d".toList
    "\x7b\"task_type\": \"plot\"\x7d".toList
    [("task_type".toList, .jStr "plot".toList)] []
    rfl rfl (by decide) rfl
  exact ⟨rfl, rfl, h.1.trans rfl, h.2.2.1.trans rfl, h.2.2.2.2.2.1.trans rfl⟩

/-- C9: validation rejects every code string shorter than 10 characters
or containing none of the recognized Python keywords, under every
syntactic oracle — hence irrespective of which synthesis tier produced
the string, since validation is a function of the code text alone. -/
theorem validate_code_rejects (syntaxOk : Str → Bool) (code : Str)
    (h : code.length < 10 ∨ ∀ kw ∈ code_keywords, strContains code kw = false) :
    validate_code syntaxOk code = false := by
  unfold validate_code
  rcases h with h | h
  · have : (code.isEmpty || decide (code.length < 10)) = true := by
      simp [h]
    simp [this]
  · have hany : code_keywords.any (fun kw => strContains code kw) = false := by
      rw [List.any_eq_false]
      intro kw hkw
      simp [h kw hkw]
    by_cases hlen : (code.isEmpty || decide (code.length < 10)) = true
    · simp [hlen]
    · simp [hlen, hany]

/-- Witness for C9: a long enough string with no recognized keyword is
rejected even by an oracle accepting everything. -/
theorem validate_code_rejects_witness :
    (∀ kw ∈ code_keywords, strContains "x = 1 + 2 + 3".toList kw = false) ∧
    validate_code (fun _ => true) "x = 1 + 2 + 3".toList = false :=
  ⟨by decide,
    validate_code_rejects (fun _ => true) "x = 1 + 2 + 3".toList
      (Or.inr (by decide))⟩

/-- C4 counterexample: a template parameter declared with a null/absent
default.  The defaults pass of `_fill_template` skips it (`if
default_value is not None`), leaving `{x}` unresolved instead of
rendering the null literal `None` — although the empty parameter set
satisfies the template's required-parameter spec. -/
theorem fill_template_null_default_ce :
    fill_template ⟨"x = \x7bx\x7d".toList, [("x".toList, ⟨false, none⟩)]⟩ []
      = "x = \x7bx\x7d".toList ∧
    (validate_parameters [("x".toList, (⟨false, none⟩ : ParamSpec))] []).1 = true ∧
    strContains
      (fill_template ⟨"x = \x7bx\x7d".toList, [("x".toList, ⟨false, none⟩)]⟩ [])
      ('{' :: "x".toList ++ ['}']) = true ∧
    fill_template ⟨"x = \x7bx\x7d".toList, [("x".toList, ⟨false, none⟩)]⟩ []
      ≠ "x = None".toList :=
  ⟨by decide, by decide, by decide, by decide⟩

/-- The fuelled replace scan is fuel-irrelevant above the input length. -/
theorem replaceAllGo_fuel (pat repl : Str) :
    ∀ (fuel₁ fuel₂ : Nat) (s : Str), s.length ≤ fuel₁ → s.length ≤ fuel₂ →
      replaceAllGo pat repl fuel₁ s = replaceAllGo pat repl fuel₂ s := by
  intro fuel₁
  induction fuel₁ with
  | zero =>
    intro fuel₂ s h₁ h₂
    have : s = [] := List.length_eq_zero.mp (Nat.le_zero.mp h₁)
    subst this
    cases fuel₂ <;> rfl
  | succ f ih =>
    intro fuel₂ s h₁ h₂
    cases s with
    | nil => cases fuel₂ <;> rfl
    | cons c rest =>
      cases fuel₂ with
      | zero => simp at h₂
      | succ f₂ =>
        simp only [replaceAllGo]
        cases pat with
        | nil => rfl
        | cons p ps =>
          simp only [List.length_cons, Nat.succ_le_succ_iff] at h₁ h₂
          by_cases hc : p = c ∧ ps.isPrefixOf rest
          · simp only [if_pos hc]
            have hd : (rest.drop ps.length).length ≤ rest.length := by
              simp [List.length_drop]
            rw [ih f₂ _ (le_trans hd h₁) (le_trans hd h₂)]
          · simp only [if_neg hc]
            rw [ih f₂ _ h₁ h₂]

/-- One-step unfolding of `replaceAll` on a non-empty input. -/
theorem replaceAll_cons (p : Char) (ps repl : Str) (c : Char) (rest : Str) :
    replaceAll (p :: ps) repl (c :: rest) =
      if p = c ∧ ps.isPrefixOf rest then
        repl ++ replaceAll (p :: ps) repl (rest.drop ps.length)
      else c :: replaceAll (p :: ps) repl rest := by
  show replaceAllGo (p :: ps) repl ((c :: rest).length) (c :: rest) = _
  simp only [List.length_cons, replaceAllGo]
  by_cases hc : p = c ∧ ps.isPrefixOf rest
  · simp only [if_pos hc]
    congr 1
    exact replaceAllGo_fuel _ _ _ _ _ (by simp [List.length_drop]) (le_refl _)
  · simp only [if_neg hc]
    rfl

/-- Matching `name-plus-closing-brace` against a brace-free name followed
by `}` succeeds exactly on equal names. -/
theorem isPrefixOf_name_brace (k : Str) :
    ∀ (n t : Str), bracelessB k = true → bracelessB n = true →
      (k ++ ['}']).isPrefixOf (n ++ '}' :: t) = decide (k = n) := by
  induction k with
  | nil =>
    intro n t _ hn
    cases n with
    | nil => simp [List.isPrefixOf]
    | cons b n' =>
      simp only [bracelessB, List.all_cons, Bool.and_eq_true] at hn
      have hb : ('}' == b) = false := by
        simp only [beq_eq_false_iff_ne, ne_eq]
        intro h
        subst h
        simp at hn
      simp [List.isPrefixOf, hb]
  | cons a k' ih =>
    intro n t hk hn
    simp only [bracelessB, List.all_cons, Bool.and_eq_true] at hk
    cases n with
    | nil =>
      have ha : (a == '}') = false := by
        simp only [beq_eq_false_iff_ne, ne_eq]
        intro h
        subst h
        simp at hk
      simp [List.isPrefixOf, ha]
    | cons b n' =>
      simp only [bracelessB, List.all_cons, Bool.and_eq_true] at hn
      by_cases hab : a = b
      · subst hab
        simp only [List.cons_append, List.isPrefixOf, beq_self_eq_true,
          Bool.true_and, List.append_eq]
        rw [ih n' t hk.2 hn.2]
        simp
      · have : (a == b) = false := by
          simp [beq_eq_false_iff_ne, hab]
        simp [List.isPrefixOf, this, hab]

/-- `flattenToks` distributes over append. -/
theorem flattenToks_append (xs ys : List Tok) :
    flattenToks (xs ++ ys) = flattenToks xs ++ flattenToks ys := by
  induction xs with
  | nil => rfl
  | cons t ts ih =>
    cases t <;> simp [flattenToks, ih]

/-- Literal-only token lists flatten to their text. -/
theorem flattenToks_map_lit (s : Str) :
    flattenToks (s.map .lit) = s := by
  induction s with
  | nil => rfl
  | cons c cs ih => simp [flattenToks, ih]

/-- The replace scan passes over brace-free text followed by `}` without
matching (the pattern starts with `{`). -/
theorem replaceAll_skip (k repl : Str) :
    ∀ (m rest : Str), bracelessB m = true →
      replaceAll ('{' :: (k ++ ['}'])) repl (m ++ '}' :: rest)
        = m ++ '}' :: replaceAll ('{' :: (k ++ ['}'])) repl rest := by
  intro m
  induction m with
  | nil =>
    intro rest _
    rw [List.nil_append, replaceAll_cons]
    have : ¬ ('{' = '}' ∧ (k ++ ['}']).isPrefixOf rest) := by
      rintro ⟨h, -⟩
      exact absurd h (by decide)
    rw [if_neg this]
    rfl
  | cons a m' ih =>
    intro rest hm
    simp only [bracelessB, List.all_cons, Bool.and_eq_true] at hm
    have ha : ¬ ('{' = a ∧ (k ++ ['}']).isPrefixOf (m' ++ '}' :: rest)) := by
      rintro ⟨h, -⟩
      subst h
      simp at hm
    rw [List.cons_append, replaceAll_cons, if_neg ha, ih rest hm.2]
    rfl

/-- The character-level replace of one placeholder equals token-level
substitution on a well-formed body. -/
theorem replaceAll_flatten (k repl : Str) (ts : List Tok)
    (hk : bracelessB k = true)
    (hwf : toksWF ts = true) :
    replaceAll ('{' :: (k ++ ['}'])) repl (flattenToks ts)
      = flattenToks (substTok k repl ts) := by
  induction ts with
  | nil => rfl
  | cons t ts ih =>
    simp only [toksWF, List.all_cons, Bool.and_eq_true] at hwf
    cases t with
    | lit c =>
      simp only [tokWF] at hwf
      have hc : ¬ ('{' = c ∧ (k ++ ['}']).isPrefixOf (flattenToks ts)) := by
        rintro ⟨h, -⟩
        subst h
        simp at hwf
      rw [flattenToks, replaceAll_cons, if_neg hc, ih hwf.2]
      rfl
    | ph n =>
      simp only [tokWF] at hwf
      rw [flattenToks, replaceAll_cons]
      by_cases hkn : k = n
      · subst hkn
        have hpre : ('{' = '{' ∧ (k ++ ['}']).isPrefixOf (k ++ '}' :: flattenToks ts)) := by
          refine ⟨rfl, ?_⟩
          rw [isPrefixOf_name_brace k k _ hk hk]
          simp
        rw [if_pos hpre]
        have hdrop : (k ++ '}' :: flattenToks ts).drop (k ++ ['}']).length
            = flattenToks ts := by
          have : k ++ '}' :: flattenToks ts = (k ++ ['}']) ++ flattenToks ts := by
            simp
          rw [this, List.drop_left]
        rw [hdrop, ih hwf.2]
        simp [substTok, flattenToks_append, flattenToks_map_lit]
      · have hpre : ¬ ('{' = '{' ∧ (k ++ ['}']).isPrefixOf (n ++ '}' :: flattenToks ts)) := by
          rintro ⟨-, h⟩
          rw [isPrefixOf_name_brace k n _ hk hwf.1] at h
          exact hkn (of_decide_eq_true h)
        rw [if_neg hpre, replaceAll_skip k repl n _ hwf.1, ih hwf.2]
        have hnk : ¬ n = k := fun h => hkn h.symm
        simp only [substTok, if_neg hnk, flattenToks]

/-- `strContains` passes over brace-free text followed by `}` without
finding a `{...}` pattern start. -/
theorem strContains_skip (k : Str) :
    ∀ (m rest : Str), bracelessB m = true →
      strContains (m ++ '}' :: rest) ('{' :: (k ++ ['}']))
        = strContains rest ('{' :: (k ++ ['}'])) := by
  intro m
  induction m with
  | nil =>
    intro rest _
    rw [List.nil_append, strContains]
    have : List.isPrefixOf ('{' :: (k ++ ['}'])) ('}' :: rest) = false := by
      simp [List.isPrefixOf]
    rw [this]
    simp
  | cons a m' ih =>
    intro rest hm
    simp only [bracelessB, List.all_cons, Bool.and_eq_true] at hm
    rw [List.cons_append, strContains]
    have : List.isPrefixOf ('{' :: (k ++ ['}'])) (a :: (m' ++ '}' :: rest)) = false := by
      have ha : ('{' == a) = false := by
        simp only [beq_eq_false_iff_ne, ne_eq]
        intro h
        subst h
        simp at hm
      simp [List.isPrefixOf, ha]
    rw [this, ih rest hm.2]
    simp

/-- On a well-formed body, the placeholder text `{k}` occurs iff the
token `ph k` occurs. -/
theorem strContains_flatten (ts : List Tok) (k : Str)
    (hk : bracelessB k = true) (hwf : toksWF ts = true) :
    strContains (flattenToks ts) ('{' :: (k ++ ['}']))
      = decide (Tok.ph k ∈ ts) := by
  induction ts with
  | nil => simp [flattenToks, strContains, List.isPrefixOf]
  | cons t ts ih =>
    simp only [toksWF, List.all_cons, Bool.and_eq_true] at hwf
    cases t with
    | lit c =>
      simp only [tokWF] at hwf
      rw [flattenToks, strContains]
      have : List.isPrefixOf ('{' :: (k ++ ['}'])) (c :: flattenToks ts) = false := by
        have hc : ('{' == c) = false := by
          simp only [beq_eq_false_iff_ne, ne_eq]
          intro h
          subst h
          simp at hwf
        simp [List.isPrefixOf, hc]
      rw [this, ih hwf.2]
      simp
    | ph n =>
      simp only [tokWF] at hwf
      rw [flattenToks, strContains]
      have hpre : List.isPrefixOf ('{' :: (k ++ ['}'])) ('{' :: (n ++ '}' :: flattenToks ts))
          = decide (k = n) := by
        simp only [List.isPrefixOf, beq_self_eq_true, Bool.true_and]
        exact isPrefixOf_name_brace k n _ hk hwf.1
      rw [hpre, strContains_skip k n _ hwf.1, ih hwf.2]
      by_cases hkn : k = n
      · subst hkn
        simp
      · have : Tok.ph k ≠ Tok.ph n := by
          intro h
          injection h with h'
          exact hkn h'
        simp [hkn, this, eq_comm]

/-- Brace-free text embeds as well-formed literal tokens. -/
theorem toksWF_map_lit (s : Str) (h : bracelessB s = true) :
    (s.map Tok.lit).all tokWF = true := by
  induction s with
  | nil => rfl
  | cons c cs ih =>
    simp only [bracelessB, List.all_cons, Bool.and_eq_true] at h
    simp only [List.map_cons, List.all_cons, Bool.and_eq_true]
    exact ⟨h.1, ih (by simpa [bracelessB] using h.2)⟩

/-- Substitution preserves well-formedness when the replacement text is
brace-free. -/
theorem substTok_wf (k repl : Str) (ts : List Tok)
    (hr : bracelessB repl = true) (hwf : toksWF ts = true) :
    toksWF (substTok k repl ts) = true := by
  induction ts with
  | nil => rfl
  | cons t ts ih =>
    simp only [toksWF, List.all_cons, Bool.and_eq_true] at hwf
    cases t with
    | lit c =>
      simp only [substTok, toksWF, List.all_cons, Bool.and_eq_true]
      exact ⟨hwf.1, ih hwf.2⟩
    | ph n =>
      by_cases hnk : n = k
      · simp only [substTok, if_pos hnk, toksWF, List.all_append,
          Bool.and_eq_true]
        refine ⟨?_, ih hwf.2⟩
        exact toksWF_map_lit repl hr
      · simp only [substTok, if_neg hnk, toksWF, List.all_cons,
          Bool.and_eq_true]
        exact ⟨hwf.1, ih hwf.2⟩

/-- Substitution never introduces a placeholder token. -/
theorem mem_substTok (m k repl : Str) (ts : List Tok)
    (h : Tok.ph m ∈ substTok k repl ts) : Tok.ph m ∈ ts := by
  induction ts with
  | nil => simpa [substTok] using h
  | cons t ts ih =>
    cases t with
    | lit c =>
      simp only [substTok, List.mem_cons] at h
      rcases h with h | h
      · exact absurd h (by simp)
      · exact List.mem_cons_of_mem _ (ih h)
    | ph n =>
      by_cases hnk : n = k
      · simp only [substTok, if_pos hnk, List.mem_append] at h
        rcases h with h | h
        · rcases List.mem_map.mp h with ⟨c, -, hc⟩
          exact absurd hc.symm (by simp)
        · exact List.mem_cons_of_mem _ (ih h)
      · simp only [substTok, if_neg hnk, List.mem_cons] at h
        rcases h with h | h
        · exact h ▸ List.mem_cons_self _ _
        · exact List.mem_cons_of_mem _ (ih h)

/-- Substituting a key removes its placeholder token entirely. -/
theorem not_mem_substTok_self (k repl : Str) (ts : List Tok) :
    Tok.ph k ∉ substTok k repl ts := by
  induction ts with
  | nil => simp [substTok]
  | cons t ts ih =>
    cases t with
    | lit c =>
      simp only [substTok, List.mem_cons]
      rintro (h | h)
      · exact absurd h (by simp)
      · exact ih h
    | ph n =>
      by_cases hnk : n = k
      · simp only [substTok, if_pos hnk, List.mem_append]
        rintro (h | h)
        · rcases List.mem_map.mp h with ⟨c, -, hc⟩
          exact absurd hc.symm (by simp)
        · exact ih h
      · simp only [substTok, if_neg hnk, List.mem_cons]
        rintro (h | h)
        · injection h with h'
          exact hnk h'.symm
        · exact ih h

/-- Substituting an absent key is the identity. -/
theorem substTok_id (k repl : Str) (ts : List Tok)
    (h : Tok.ph k ∉ ts) : substTok k repl ts = ts := by
  induction ts with
  | nil => rfl
  | cons t ts ih =>
    simp only [List.mem_cons, not_or] at h
    cases t with
    | lit c => simp [substTok, ih h.2]
    | ph n =>
      have hnk : ¬ n = k := by
        intro he
        exact h.1 (by rw [he])
      simp [substTok, hnk, ih h.2]

/-- The user-parameter pass equals token-level substitution on a
well-formed body with brace-free keys and formatted values. -/
theorem fill_user_pass_flatten (params : List (Str × Value)) :
    ∀ ts : List Tok, toksWF ts = true →
      (∀ kv ∈ params, bracelessB kv.1 = true ∧
        bracelessB (format_parameter_value kv.2) = true) →
      fill_user_pass (flattenToks ts) params
        = flattenToks (substUser params ts) := by
  induction params with
  | nil => intro ts _ _; rfl
  | cons kv rest ih =>
    intro ts hwf hp
    obtain ⟨key, v⟩ := kv
    have hhead := hp (key, v) (List.mem_cons_self _ _)
    have htail : ∀ kv ∈ rest, bracelessB kv.1 = true ∧
        bracelessB (format_parameter_value kv.2) = true :=
      fun kv h => hp kv (List.mem_cons_of_mem _ h)
    have hstep : substUser ((key, v) :: rest) ts
        = substUser rest (substTok key (format_parameter_value v) ts) := rfl
    rw [hstep]
    simp only [fill_user_pass]
    by_cases hmem : Tok.ph key ∈ ts
    · rw [if_pos (by rw [strContains_flatten ts key hhead.1 hwf]; exact decide_eq_true hmem)]
      rw [replaceAll_flatten key _ ts hhead.1 hwf]
      exact ih _ (substTok_wf _ _ _ hhead.2 hwf) htail
    · rw [if_neg (by rw [strContains_flatten ts key hhead.1 hwf]; simp [hmem])]
      rw [substTok_id key _ ts hmem]
      exact ih ts hwf htail

/-- The defaults pass equals token-level substitution of the non-null
defaults on a well-formed body. -/
theorem fill_defaults_pass_flatten (tparams : List (Str × ParamSpec)) :
    ∀ ts : List Tok, toksWF ts = true →
      (∀ kv ∈ tparams, bracelessB kv.1 = true ∧
        kv.2.default.all (fun dv => bracelessB (format_parameter_value dv)) = true) →
      fill_defaults_pass (flattenToks ts) tparams
        = flattenToks (substDefaults tparams ts) := by
  induction tparams with
  | nil => intro ts _ _; rfl
  | cons kv rest ih =>
    intro ts hwf hp
    obtain ⟨name, spec⟩ := kv
    have hhead := hp (name, spec) (List.mem_cons_self _ _)
    have htail : ∀ kv ∈ rest, bracelessB kv.1 = true ∧
        kv.2.default.all (fun dv => bracelessB (format_parameter_value dv)) = true :=
      fun kv h => hp kv (List.mem_cons_of_mem _ h)
    simp only [fill_defaults_pass]
    cases hd : spec.default with
    | none =>
      have hstep : substDefaults ((name, spec) :: rest) ts
          = substDefaults rest ts := by
        simp only [substDefaults, List.foldl_cons, hd]
      rw [hstep]
      split <;> exact ih ts hwf htail
    | some dv =>
      have hfmt : bracelessB (format_parameter_value dv) = true := by
        have := hhead.2
        rw [hd] at this
        simpa using this
      have hstep : substDefaults ((name, spec) :: rest) ts
          = substDefaults rest (substTok name (format_parameter_value dv) ts) := by
        simp only [substDefaults, List.foldl_cons, hd]
      rw [hstep]
      by_cases hmem : Tok.ph name ∈ ts
      · rw [if_pos (by rw [strContains_flatten ts name hhead.1 hwf]; exact decide_eq_true hmem)]
        show fill_defaults_pass
          (replaceAll ('{' :: (name ++ ['}'])) (format_parameter_value dv)
            (flattenToks ts)) rest = _
        rw [replaceAll_flatten name _ ts hhead.1 hwf]
        exact ih _ (substTok_wf _ _ _ hfmt hwf) htail
      · rw [if_neg (by rw [strContains_flatten ts name hhead.1 hwf]; simp [hmem])]
        rw [substTok_id name _ ts hmem]
        exact ih ts hwf htail

/-- The user pass never introduces a placeholder. -/
theorem not_mem_substUser (k : Str) (params : List (Str × Value)) :
    ∀ ts : List Tok, Tok.ph k ∉ ts → Tok.ph k ∉ substUser params ts := by
  induction params with
  | nil => intro ts h; exact h
  | cons kv rest ih =>
    intro ts h
    exact ih _ (fun hm => h (mem_substTok _ _ _ _ hm))

/-- The defaults pass never introduces a placeholder. -/
theorem not_mem_substDefaults (k : Str) (tparams : List (Str × ParamSpec)) :
    ∀ ts : List Tok, Tok.ph k ∉ ts → Tok.ph k ∉ substDefaults tparams ts := by
  induction tparams with
  | nil => intro ts h; exact h
  | cons kv rest ih =>
    intro ts h
    obtain ⟨name, spec⟩ := kv
    cases hd : spec.default with
    | none =>
      have hstep : substDefaults ((name, spec) :: rest) ts
          = substDefaults rest ts := by
        simp only [substDefaults, List.foldl_cons, hd]
      rw [hstep]
      exact ih ts h
    | some dv =>
      have hstep : substDefaults ((name, spec) :: rest) ts
          = substDefaults rest (substTok name (format_parameter_value dv) ts) := by
        simp only [substDefaults, List.foldl_cons, hd]
      rw [hstep]
      exact ih _ (fun hm => h (mem_substTok _ _ _ _ hm))

/-- After the user pass, every user-supplied key's placeholder is gone. -/
theorem substUser_removes (k : Str) (params : List (Str × Value)) :
    ∀ ts : List Tok, k ∈ params.map Prod.fst →
      Tok.ph k ∉ substUser params ts := by
  induction params with
  | nil => intro ts h; simp at h
  | cons kv rest ih =>
    intro ts h
    obtain ⟨key, v⟩ := kv
    simp only [List.map_cons, List.mem_cons] at h
    have hstep : substUser ((key, v) :: rest) ts
        = substUser rest (substTok key (format_parameter_value v) ts) := rfl
    rw [hstep]
    rcases h with h | h
    · subst h
      exact not_mem_substUser k rest _ (not_mem_substTok_self k _ ts)
    · exact ih _ h

/-- After the defaults pass, every key declared with a non-null default
has its placeholder gone. -/
theorem substDefaults_removes (k : Str) (tparams : List (Str × ParamSpec)) :
    ∀ ts : List Tok,
      (∃ spec dv, (k, spec) ∈ tparams ∧ spec.default = some dv) →
      Tok.ph k ∉ substDefaults tparams ts := by
  induction tparams with
  | nil =>
    intro ts h
    rcases h with ⟨spec, dv, hmem, -⟩
    simp at hmem
  | cons kv rest ih =>
    intro ts h
    obtain ⟨name, sp⟩ := kv
    rcases h with ⟨spec, dv, hmem, hd⟩
    rcases List.mem_cons.mp hmem with heq | hmem'
    · have hk : k = name := congrArg Prod.fst heq
      have hsp : sp = spec := (congrArg Prod.snd heq).symm
      subst hk
      have hstep : substDefaults ((k, sp) :: rest) ts
          = substDefaults rest (substTok k (format_parameter_value dv) ts) := by
        simp only [substDefaults, List.foldl_cons, hsp, hd]
      rw [hstep]
      exact not_mem_substDefaults k rest _ (not_mem_substTok_self k _ ts)
    · cases hd' : sp.default with
      | none =>
        have hstep : substDefaults ((name, sp) :: rest) ts
            = substDefaults rest ts := by
          simp only [substDefaults, List.foldl_cons, hd']
        rw [hstep]
        exact ih ts ⟨spec, dv, hmem', hd⟩
      | some dv' =>
        have hstep : substDefaults ((name, sp) :: rest) ts
            = substDefaults rest (substTok name (format_parameter_value dv') ts) := by
          simp only [substDefaults, List.foldl_cons, hd']
        rw [hstep]
        exact ih _ ⟨spec, dv, hmem', hd⟩

/-- The user pass preserves well-formedness. -/
theorem substUser_wf (params : List (Str × Value)) :
    ∀ ts : List Tok, toksWF ts = true →
      (∀ kv ∈ params, bracelessB (format_parameter_value kv.2) = true) →
      toksWF (substUser params ts) = true := by
  induction params with
  | nil => intro ts h _; exact h
  | cons kv rest ih =>
    intro ts h hp
    exact ih _ (substTok_wf _ _ _ (hp kv (List.mem_cons_self _ _)) h)
      (fun kv hm => hp kv (List.mem_cons_of_mem _ hm))

/-- The defaults pass preserves well-formedness. -/
theorem substDefaults_wf (tparams : List (Str × ParamSpec)) :
    ∀ ts : List Tok, toksWF ts = true →
      (∀ kv ∈ tparams,
        kv.2.default.all (fun dv => bracelessB (format_parameter_value dv)) = true) →
      toksWF (substDefaults tparams ts) = true := by
  induction tparams with
  | nil => intro ts h _; exact h
  | cons kv rest ih =>
    intro ts h hp
    obtain ⟨name, spec⟩ := kv
    have htail := fun kv hm => hp kv (List.mem_cons_of_mem _ hm)
    cases hd : spec.default with
    | none =>
      have hstep : substDefaults ((name, spec) :: rest) ts
          = substDefaults rest ts := by
        simp only [substDefaults, List.foldl_cons, hd]
      rw [hstep]
      exact ih ts h htail
    | some dv =>
      have hfmt : bracelessB (format_parameter_value dv) = true := by
        have := hp (name, spec) (List.mem_cons_self _ _)
        rw [hd] at this
        simpa using this
      have hstep : substDefaults ((name, spec) :: rest) ts
          = substDefaults rest (substTok name (format_parameter_value dv) ts) := by
        simp only [substDefaults, List.foldl_cons, hd]
      rw [hstep]
      exact ih _ (substTok_wf _ _ _ hfmt h) htail

/-- C4 (amended): raw template filling substitutes user parameters first
and still-present placeholders from non-null defaults second; on a
template body that alternates brace-free literal text with `{name}`
placeholders, with brace-free keys and formatted values, and a parameter
set satisfying the required-parameter spec, no placeholder with a
user-supplied value or a declared non-null default survives in the
filled code.  (Null/absent defaults leave their placeholder in place —
see the counterexample — and only user-supplied `None` values render as
the `None` literal.) -/
theorem fill_template_resolves
    (tmpl : TemplateM) (parameters : List (Str × Value)) (ts : List Tok)
    (k : Str)
    (hbody : tmpl.code_template = flattenToks ts)
    (hwf : toksWF ts = true)
    (hparams : ∀ kv ∈ parameters, bracelessB kv.1 = true ∧
        bracelessB (format_parameter_value kv.2) = true)
    (htparams : ∀ kv ∈ tmpl.parameters, bracelessB kv.1 = true ∧
        kv.2.default.all (fun dv => bracelessB (format_parameter_value dv)) = true)
    (hreq : (validate_parameters tmpl.parameters parameters).1 = true)
    (hk : (∃ v, (k, v) ∈ parameters) ∨
        ∃ spec dv, (k, spec) ∈ tmpl.parameters ∧ spec.default = some dv) :
    strContains (fill_template tmpl parameters) ('{' :: (k ++ ['}'])) = false := by
  have hbk : bracelessB k = true := by
    rcases hk with ⟨v, hv⟩ | ⟨spec, dv, hs, -⟩
    · exact (hparams (k, v) hv).1
    · exact (htparams (k, spec) hs).1
  have hwf1 : toksWF (substUser parameters ts) = true :=
    substUser_wf parameters ts hwf (fun kv hm => (hparams kv hm).2)
  have hwf2 : toksWF (substDefaults tmpl.parameters (substUser parameters ts)) = true :=
    substDefaults_wf tmpl.parameters _ hwf1 (fun kv hm => (htparams kv hm).2)
  rw [fill_template, hbody,
    fill_user_pass_flatten parameters ts hwf hparams,
    fill_defaults_pass_flatten tmpl.parameters _ hwf1 htparams,
    strContains_flatten _ k hbk hwf2]
  rw [decide_eq_false_iff_not]
  rcases hk with ⟨v, hv⟩ | ⟨spec, dv, hs, hd⟩
  · exact not_mem_substDefaults k tmpl.parameters _
      (substUser_removes k parameters ts
        (List.mem_map.mpr ⟨(k, v), hv, rfl⟩))
  · exact substDefaults_removes k tmpl.parameters _ ⟨spec, dv, hs, hd⟩

/-- Witness for the amended C4: a two-placeholder template, one
placeholder filled from the user parameters and one from a non-null
declared default; both are resolved. -/
theorem fill_template_resolves_witness :
    "\x7bu\x7d = \x7bt\x7d".toList
      = flattenToks [.ph "u".toList, .lit ' ', .lit '=', .lit ' ', .ph "t".toList] ∧
    strContains
      (fill_template
        ⟨"\x7bu\x7d = \x7bt\x7d".toList,
         [("t".toList, ⟨false, some (.vStr "T".toList)⟩)]⟩
        [("u".toList, .vInt 5)])
      ('{' :: ("u".toList ++ ['}'])) = false ∧
    strContains
      (fill_template
        ⟨"\x7bu\x7d = \x7bt\x7d".toList,
         [("t".toList, ⟨false, some (.vStr "T".toList)⟩)]⟩
        [("u".toList, .vInt 5)])
      ('{' :: ("t".toList ++ ['}'])) = false :=
  ⟨rfl,
    fill_template_resolves
      ⟨"\x7bu\x7d = \x7bt\x7d".toList,
       [("t".toList, ⟨false, some (.vStr "T".toList)⟩)]⟩
      [("u".toList, .vInt 5)]
      [.ph "u".toList, .lit ' ', .lit '=', .lit ' ', .ph "t".toList]
      "u".toList rfl (by decide) (by decide) (by decide) (by decide)
      (Or.inl ⟨.vInt 5, by decide⟩),
    fill_template_resolves
      ⟨"\x7bu\x7d = \x7bt\x7d".toList,
       [("t".toList, ⟨false, some (.vStr "T".toList)⟩)]⟩
      [("u".toList, .vInt 5)]
      [.ph "u".toList, .lit ' ', .lit '=', .lit ' ', .ph "t".toList]
      "t".toList rfl (by decide) (by decide) (by decide) (by decide)
      (Or.inr ⟨⟨false, some (.vStr "T".toList)⟩, .vStr "T".toList, by simp, rfl⟩)⟩

/-- Setting a key makes it look up to the new value. -/
theorem hashGet_hashSet_self (d : List (Str × Str)) (k v : Str) :
    hashGet (hashSet d k v) k = some v := by
  induction d with
  | nil => simp [hashSet, hashGet]
  | cons kv rest ih =>
    obtain ⟨a, b⟩ := kv
    by_cases hak : a = k <;> simp [hashSet, hashGet, hak, ih]

/-- C7 evidence: the duplicate-detection helper does flag the second of
two successive identical submissions — for any content-hash function —
but `execute` never invokes it: the tool state is unchanged by every
call, the execution service is re-invoked under exactly the same
conditions on a repeated identical submission, and the repeated call's
behaviour is identical to the first. -/
theorem duplicate_check_unwired (f : Str → Str) (d : List (Str × Str))
    (s c : Str) (st : ToolState) (u : Str) (oc : ToolOracles) :
    (check_duplicate f (check_duplicate f d s c).2 s c).1 = true ∧
    (tool_execute st u oc).state = st ∧
    ((tool_execute st u oc).executorCalled = true ↔
      pyStrip u ≠ [] ∧ oc.importOk = true ∧ ∃ code, oc.genOut = .ok code) ∧
    tool_execute (tool_execute st u oc).state u oc = tool_execute st u oc := by
  refine ⟨?_, ?_, ?_, ?_⟩
  · by_cases h : hashGet d s = some (f c)
    · simp [check_duplicate, h]
    · simp [check_duplicate, h, hashGet_hashSet_self]
  · unfold tool_execute
    split
    · rfl
    split
    · rfl
    split <;> rfl
  · unfold tool_execute
    rcases oc with ⟨imp, gen⟩
    by_cases h1 : pyStrip u = []
    · simp [h1]
    by_cases h2 : imp = false
    · subst h2
      simp [h1]
    · have : imp = true := by
        cases imp
        · exact absurd rfl h2
        · rfl
      subst this
      cases gen with
      | error e => simp [h1]
      | ok code => simp [h1, ‹pyStrip u ≠ []›]
  · have hst : (tool_execute st u oc).state = st := by
      unfold tool_execute
      split
      · rfl
      split
      · rfl
      split <;> rfl
    rw [hst]

end QuickE2B
